import Mathlib

/-!
# Verification of the Minisafe wallet-daemon command layer

A shallow embedding of `src/commands/mod.rs` (the `DaemonControl` command
surface) over an explicit model of the database contract
(`src/database/mod.rs`) and the Bitcoin backend contract.

Modelling conventions:
* `u64` amounts and sizes become `Nat`; every checked operation of the Rust
  code (`checked_sub`, `checked_div`, ...) is modelled by the explicit
  comparison the code performs before using the result, so a `None` from a
  checked operation is an explicit branch here as it is in the source.
* Maps (`HashMap`, `BTreeMap`, the SQL tables behind the database trait) are
  association lists; `mapInsert` replaces the binding of a key, mirroring
  `BTreeMap::insert`, and `mapExtend` mirrors `BTreeMap::extend` (each
  element of the argument is inserted into the receiver, so the argument's
  bindings win on a key collision).
* Quantities computed by the `bitcoin` library (transaction weight,
  serialized sizes, txids, descriptor derivation, Miniscript finalization)
  are fields of an environment `Env` / configuration `Config`: they are
  external collaborators of the verified code, which only consumes them.
* `f64` progress values are only passed through by the code (never computed
  with), so they are embedded as exact rationals; `1.0` becomes `(1 : ℚ)`.
-/

namespace Minisafe

/-! ## Association-list maps -/

/-- Lookup in an association list (first binding wins, as in any map with
unique keys). -/
def alookup {κ ν : Type} [DecidableEq κ] : List (κ × ν) → κ → Option ν
  | [], _ => none
  | kv :: rest, k => if kv.1 = k then some kv.2 else alookup rest k

/-- Insert-or-replace, mirroring `BTreeMap::insert` / an SQL upsert: the new
binding replaces any existing binding of the key. -/
def mapInsert {κ ν : Type} [DecidableEq κ] (m : List (κ × ν)) (k : κ) (v : ν) :
    List (κ × ν) :=
  (k, v) :: m.filter (fun kv => kv.1 ≠ k)

/-- `BTreeMap::extend`: every binding of `other` is inserted into `m`, so on
a key collision the binding coming from `other` wins. -/
def mapExtend {κ ν : Type} [DecidableEq κ] (m other : List (κ × ν)) :
    List (κ × ν) :=
  other.foldl (fun acc kv => mapInsert acc kv.1 kv.2) m

/-! ## Bitcoin data model (`miniscript::bitcoin` types, as consumed) -/

/-- A transaction id. The hash itself is opaque to the verified code. -/
abbrev Txid := Nat

/-- `bitcoin::OutPoint`. -/
structure OutPoint where
  txid : Txid
  vout : Nat
  deriving DecidableEq, Repr

/-- `bitcoin::TxOut`. Script pubkeys are opaque identifiers. -/
structure TxOut where
  value : Nat
  script_pubkey : Nat
  deriving DecidableEq, Repr

/-- `bitcoin::TxIn` as built by `create_spend`: only `previous_output` is
ever set or read by the command layer (sequence, script_sig and witness stay
at their defaults). -/
structure TxIn where
  previous_output : OutPoint
  deriving DecidableEq, Repr

/-- `bitcoin::Transaction`. -/
structure Transaction where
  version : Int
  lock_time : Nat
  input : List TxIn
  output : List TxOut
  deriving DecidableEq, Repr

/-- A PSBT input (`psbt::Input`): the fields the command layer reads or
writes. `bip32_derivation` maps a wallet pubkey to its (fingerprint, path)
origin; `partial_sigs` maps a pubkey to a signature; both pubkeys and
signatures are opaque identifiers. -/
structure PsbtIn where
  witness_script : Option Nat := none
  witness_utxo : Option TxOut := none
  bip32_derivation : List (Nat × Nat) := []
  partial_sigs : List (Nat × Nat) := []
  deriving DecidableEq, Repr

/-- A PSBT output (`psbt::Output`): always left at its default by the
command layer. -/
structure PsbtOut where
  deriving DecidableEq, Repr

/-- A BIP-174 PSBT. `version` is always 0 and the xpub/proprietary/unknown
maps always empty in the code, and none of them is ever read back, so they
are omitted. -/
structure Psbt where
  unsigned_tx : Transaction
  inputs : List PsbtIn
  outputs : List PsbtOut
  deriving DecidableEq, Repr

/-! ## Database data model (`src/database/mod.rs`) -/

/-- `database::SpendBlock`. -/
structure SpendBlock where
  height : Int
  time : Nat
  deriving DecidableEq, Repr

/-- `database::Coin`. -/
structure Coin where
  outpoint : OutPoint
  block_height : Option Int
  block_time : Option Nat
  amount : Nat
  derivation_index : Nat
  is_change : Bool
  spend_txid : Option Txid
  spend_block : Option SpendBlock
  deriving DecidableEq, Repr

/-- `Coin::is_confirmed`. -/
def Coin.is_confirmed (c : Coin) : Bool := c.block_height.isSome

/-- `Coin::is_spent`. -/
def Coin.is_spent (c : Coin) : Bool := c.spend_txid.isSome

/-- `bitcoin::BlockChainTip`. -/
structure BlockChainTip where
  height : Int
  hash : Nat
  deriving DecidableEq, Repr

/-- The state behind a database connection: the wallet row, the coins table
and the spend-transactions table (keyed by unsigned-tx txid), as exposed by
the `DatabaseConnection` trait. -/
structure DbState where
  coins : List (OutPoint × Coin)
  spend_txs : List (Txid × Psbt)
  receive_index : Nat
  change_index : Nat
  rescan_timestamp : Option Nat
  tip : Option BlockChainTip
  deriving DecidableEq, Repr

/-- `DatabaseConnection::coins_by_outpoints`: the stored coins whose
outpoint is among the requested ones (a `HashMap` in the code, so
deduplicated by outpoint; stored keys are unique already). -/
def coins_by_outpoints (coins : List (OutPoint × Coin)) (ops : List OutPoint) :
    List (OutPoint × Coin) :=
  coins.filter (fun kc => ops.contains kc.1)

/-! ## External collaborators -/

/-- What derivation of the wallet descriptor at one (branch, index) yields:
`descriptors::DerivedInheritanceDescriptor` as consumed by the command
layer. -/
structure DerivedDesc where
  script_pubkey : Nat
  witness_script : Nat
  max_sat_weight : Nat
  bip32_derivations : List (Nat × Nat)
  deriving DecidableEq, Repr

/-- The daemon configuration: the main multipath descriptor, exposed through
the derivation `derive is_change index` (the change sub-descriptor when
`is_change`, the receive one otherwise, derived at `index`). -/
structure Config where
  derive : Bool → Nat → DerivedDesc

/-- The pure functions of the `bitcoin`/`miniscript` libraries the command
layer calls: consensus weight and serialized size, txid computation, and
Miniscript PSBT finalization. -/
structure Env where
  weight : Transaction → Nat
  serTxOutSize : TxOut → Nat
  txidOf : Transaction → Txid
  finalize : Psbt → Except String Psbt

/-- The Bitcoin backend contract (`BitcoinInterface`), as consumed by the
commands verified here. `start_rescan` and `broadcast_tx` yield the
backend's answer; `rescan_progress` and `sync_progress` are `f64` values
only passed through, embedded as rationals. -/
structure Backend where
  tip_time : Nat
  rescan_progress : Option ℚ
  sync_progress : ℚ
  start_rescan : Nat → Except String Unit
  wallet_transaction : Txid → Option Transaction
  broadcast_tx : Transaction → Except String Unit

/-! ## Constants and errors (`src/commands/mod.rs`) -/

def WITNESS_FACTOR : Nat := 4

def DUST_OUTPUT_SATS : Nat := 5000

/-- `bitcoin::blockdata::constants::COIN_VALUE`. -/
def COIN_VALUE : Nat := 100000000

def MAX_FEE : Nat := COIN_VALUE

def MAX_FEERATE : Nat := COIN_VALUE

def MAINNET_GENESIS_TIME : Nat := 1231006505

/-- `bitcoin::blockdata::constants::max_money(Network::Bitcoin)`. -/
def MAX_MONEY : Nat := 21000000 * COIN_VALUE

/-- `commands::CommandError`. -/
inductive CommandError where
  | NoOutpoint
  | NoDestination
  | InvalidFeerate (sats_vb : Nat)
  | UnknownOutpoint (op : OutPoint)
  | AlreadySpent (op : OutPoint)
  | InvalidOutputValue (amount : Nat)
  | InsufficientFunds (in_value out_value : Nat) (target_feerate : Nat)
  | SanityCheckFailure (psbt : Psbt)
  | UnknownSpend (txid : Txid)
  | SpendFinalization (msg : String)
  | TxBroadcast (msg : String)
  | AlreadyRescanning
  | InsaneRescanTimestamp (t : Nat)
  | RescanTrigger (msg : String)
  deriving DecidableEq, Repr

/-! ## Helpers of `src/commands/mod.rs` -/

/-- `commands::check_output_value`. -/
def check_output_value (value : Nat) : Except CommandError Unit :=
  if value > MAX_MONEY ∨ value < DUST_OUTPUT_SATS then
    .error (.InvalidOutputValue value)
  else
    .ok ()

/-- `commands::tx_vbytes`: `tx.weight().checked_div(WITNESS_FACTOR)`; the
divisor is the constant 4, so the `unwrap` never fires. -/
def tx_vbytes (env : Env) (tx : Transaction) : Nat :=
  env.weight tx / WITNESS_FACTOR

/-- `commands::desc_sat_vb`: `desc.max_sat_weight().checked_div(4)`. -/
def desc_sat_vb (desc : DerivedDesc) : Nat :=
  desc.max_sat_weight / WITNESS_FACTOR

/-- The input-scanning loop of `commands::sanity_check_psbt`: fails (as the
code errors with `SanityCheckFailure`) when an input has an empty
`bip32_derivation` or no `witness_utxo`; otherwise the summed witness-utxo
values. -/
def psbt_in_value : List PsbtIn → Option Nat
  | [] => some 0
  | pin :: rest =>
    if pin.bip32_derivation.isEmpty then none
    else
      match pin.witness_utxo with
      | none => none
      | some utxo => (psbt_in_value rest).map (fun s => utxo.value + s)

/-- `commands::sanity_check_psbt`. -/
def sanity_check_psbt (env : Env) (psbt : Psbt) : Except CommandError Unit :=
  let tx := psbt.unsigned_tx
  if psbt.inputs.length ≠ tx.input.length ∨ psbt.outputs.length ≠ tx.output.length then
    .error (.SanityCheckFailure psbt)
  else
    match psbt_in_value psbt.inputs with
    | none => .error (.SanityCheckFailure psbt)
    | some value_in =>
      let value_out := (tx.output.map TxOut.value).sum
      if value_in < value_out then
        .error (.SanityCheckFailure psbt)
      else
        let abs_fee := value_in - value_out
        if abs_fee > MAX_FEE then
          .error (.SanityCheckFailure psbt)
        else
          let tx_vb := tx_vbytes env tx
          if tx_vb = 0 then
            .error (.SanityCheckFailure psbt)
          else
            let feerate_sats_vb := abs_fee / tx_vb
            if 1 ≤ feerate_sats_vb ∧ feerate_sats_vb ≤ MAX_FEERATE then
              .ok ()
            else
              .error (.SanityCheckFailure psbt)

/-! ## `get_info` -/

/-- The part of `commands::GetInfoResult` computed by the command layer
(version and descriptors are configuration constants). -/
structure GetInfoResult where
  blockheight : Int
  sync : ℚ
  rescan_progress : Option ℚ
  deriving DecidableEq, Repr

/-- `DaemonControl::get_info`. When the database holds a rescan timestamp,
`rescan_progress` is the backend's progress, defaulted to `1.0` (finished);
otherwise it is `None`. -/
def get_info (bk : Backend) (db : DbState) : GetInfoResult :=
  { blockheight := (db.tip.map BlockChainTip.height).getD 0
    sync := bk.sync_progress
    rescan_progress := db.rescan_timestamp.map (fun _ => bk.rescan_progress.getD 1) }

/-! ## `create_spend` -/

/-- `commands::CreateSpendResult`. -/
structure CreateSpendResult where
  psbt : Psbt
  deriving DecidableEq, Repr

/-- The input-assembly loop of `create_spend`: walk the given outpoints in
caller order, fetching each coin from the ones returned by
`coins_by_outpoints` (a missing one is `UnknownOutpoint`, a spent one
`AlreadySpent`), and accumulate the input value, the summed per-input
maximum satisfaction vbytes, the transaction inputs and the PSBT inputs. -/
def assembleInputs (cfg : Config) (coins : List (OutPoint × Coin)) :
    List OutPoint → Except CommandError (Nat × Nat × List TxIn × List PsbtIn)
  | [] => .ok (0, 0, [], [])
  | op :: rest =>
    match alookup coins op with
    | none => .error (.UnknownOutpoint op)
    | some coin =>
      if coin.is_spent then .error (.AlreadySpent op)
      else
        let coin_desc := cfg.derive coin.is_change coin.derivation_index
        match assembleInputs cfg coins rest with
        | .error e => .error e
        | .ok (in_value, sat_vb, txins, psbt_ins) =>
          .ok (coin.amount + in_value,
               desc_sat_vb coin_desc + sat_vb,
               { previous_output := op } :: txins,
               { witness_script := some coin_desc.witness_script
                 witness_utxo := some { value := coin.amount
                                        script_pubkey := coin_desc.script_pubkey }
                 bip32_derivation := coin_desc.bip32_derivations
                 partial_sigs := [] } :: psbt_ins)

/-- The output-assembly loop of `create_spend`: walk the destinations (an
address is identified with its script pubkey here), sanity-check each value,
and accumulate the output value, the transaction outputs and the (default)
PSBT outputs. -/
def assembleOutputs :
    List (Nat × Nat) → Except CommandError (Nat × List TxOut × List PsbtOut)
  | [] => .ok (0, [], [])
  | (address, value_sat) :: rest =>
    match check_output_value value_sat with
    | .error e => .error e
    | .ok () =>
      match assembleOutputs rest with
      | .error e => .error e
      | .ok (out_value, txouts, psbt_outs) =>
        .ok (value_sat + out_value,
             { value := value_sat, script_pubkey := address } :: txouts,
             PsbtOut.mk :: psbt_outs)

/-- The tail of `create_spend`: build the PSBT (version-2 transaction,
locktime 0, PSBT version 0) and run `sanity_check_psbt` on it. -/
def finishSpend (env : Env) (tx : Transaction) (psbt_ins : List PsbtIn)
    (psbt_outs : List PsbtOut) (db : DbState) :
    Except CommandError CreateSpendResult × DbState :=
  let psbt : Psbt := { unsigned_tx := tx, inputs := psbt_ins, outputs := psbt_outs }
  match sanity_check_psbt env psbt with
  | .error e => (.error e, db)
  | .ok () => (.ok { psbt := psbt }, db)

/-- The change-decision step of `create_spend` (the branch guarded by
`nochange_feerate_vb > feerate_vb`): derive the next change script, persist
the change-index increment immediately, size a dummy change output, and
append a real change output only when the with-change feerate still exceeds
the target and the implied change amount is not dust. All the `unwrap`ed
checked operations here are safe: `with_change_vb > 0` and, under
`with_change_feerate_vb > feerate_vb`, `absolute_fee ≥ target_fee`. -/
def changeAndFinish (env : Env) (cfg : Config) (db : DbState) (tx : Transaction)
    (psbt_ins : List PsbtIn) (psbt_outs : List PsbtOut)
    (nochange_vb absolute_fee feerate_vb : Nat) :
    Except CommandError CreateSpendResult × DbState :=
  if absolute_fee / nochange_vb > feerate_vb then
    let change_desc := cfg.derive true db.change_index
    let db' := { db with change_index := db.change_index + 1 }
    let change_txo : TxOut := { value := 2 ^ 64 - 1
                                script_pubkey := change_desc.script_pubkey }
    let change_vb := env.serTxOutSize change_txo
    let with_change_vb := nochange_vb + change_vb
    let with_change_feerate_vb := absolute_fee / with_change_vb
    if with_change_feerate_vb > feerate_vb then
      let target_fee := with_change_vb * feerate_vb
      let change_amount := absolute_fee - target_fee
      if change_amount ≥ DUST_OUTPUT_SATS then
        match check_output_value change_amount with
        | .error e => (.error e, db')
        | .ok () =>
          finishSpend env
            { tx with output := tx.output ++
                [{ value := change_amount, script_pubkey := change_desc.script_pubkey }] }
            psbt_ins (psbt_outs ++ [PsbtOut.mk]) db'
      else
        finishSpend env tx psbt_ins psbt_outs db'
    else
      finishSpend env tx psbt_ins psbt_outs db'
  else
    finishSpend env tx psbt_ins psbt_outs db

/-- `DaemonControl::create_spend`. Destinations are given in the `HashMap`'s
iteration order; an address stands for its script pubkey. Returns the
command's result together with the database state it leaves behind. -/
def create_spend (env : Env) (cfg : Config) (db : DbState)
    (coins_outpoints : List OutPoint) (destinations : List (Nat × Nat))
    (feerate_vb : Nat) : Except CommandError CreateSpendResult × DbState :=
  if coins_outpoints.isEmpty then (.error .NoOutpoint, db)
  else if destinations.isEmpty then (.error .NoDestination, db)
  else if feerate_vb < 1 then (.error (.InvalidFeerate feerate_vb), db)
  else
    let coins := coins_by_outpoints db.coins coins_outpoints
    match assembleInputs cfg coins coins_outpoints with
    | .error e => (.error e, db)
    | .ok (in_value, sat_vb, txins, psbt_ins) =>
      match assembleOutputs destinations with
      | .error e => (.error e, db)
      | .ok (out_value, txouts, psbt_outs) =>
        let tx : Transaction :=
          { version := 2, lock_time := 0, input := txins, output := txouts }
        let nochange_vb := tx_vbytes env tx + sat_vb
        if in_value < out_value then
          (.error (.InsufficientFunds in_value out_value feerate_vb), db)
        else
          let absolute_fee := in_value - out_value
          let nochange_feerate_vb := absolute_fee / nochange_vb
          if nochange_feerate_vb * 10 < feerate_vb * 9 then
            (.error (.InsufficientFunds in_value out_value feerate_vb), db)
          else
            changeAndFinish env cfg db tx psbt_ins psbt_outs
              nochange_vb absolute_fee feerate_vb

/-- Whether a `create_spend` run reaches the change branch (the branch
guarded by `nochange_feerate_vb > feerate_vb`), spelled out from the same
phase functions. -/
def entersChangeBranch (env : Env) (cfg : Config) (db : DbState)
    (coins_outpoints : List OutPoint) (destinations : List (Nat × Nat))
    (feerate_vb : Nat) : Bool :=
  if coins_outpoints.isEmpty ∨ destinations.isEmpty ∨ feerate_vb < 1 then false
  else
    match assembleInputs cfg (coins_by_outpoints db.coins coins_outpoints)
        coins_outpoints with
    | .error _ => false
    | .ok (in_value, sat_vb, txins, _) =>
      match assembleOutputs destinations with
      | .error _ => false
      | .ok (out_value, txouts, _) =>
        let tx : Transaction :=
          { version := 2, lock_time := 0, input := txins, output := txouts }
        let nochange_vb := tx_vbytes env tx + sat_vb
        if in_value < out_value then false
        else
          let nochange_feerate_vb := (in_value - out_value) / nochange_vb
          ¬ (nochange_feerate_vb * 10 < feerate_vb * 9) ∧
            nochange_feerate_vb > feerate_vb

/-! ## `update_spend` -/

/-- `DatabaseConnection::store_spend`: insert or replace the PSBT, keyed by
its unsigned transaction's txid. -/
def store_spend (env : Env) (db : DbState) (psbt : Psbt) : DbState :=
  { db with spend_txs := mapInsert db.spend_txs (env.txidOf psbt.unsigned_tx) psbt }

/-- One iteration of the `update_spend` merge loop, at input position `i`:
when the incoming transaction has an input at `i` whose `previous_output`
matches the stored transaction's input at `i`, and the stored PSBT has an
input at `i`, extend the incoming PSBT input's `partial_sigs` with the
stored ones (stored bindings win on a pubkey collision, per
`BTreeMap::extend`); otherwise the input is left alone. -/
def mergeStep (tx db_tx : Transaction) (db_ins : List PsbtIn) (i : Nat)
    (psbtin : PsbtIn) : PsbtIn :=
  match tx.input.get? i, db_tx.input.get? i, db_ins.get? i with
  | some txin, some db_txin, some db_psbtin =>
    if txin.previous_output = db_txin.previous_output then
      { psbtin with
        partial_sigs := mapExtend psbtin.partial_sigs db_psbtin.partial_sigs }
    else psbtin
  | _, _, _ => psbtin

/-- The `update_spend` merge loop applied to every incoming PSBT input
(positions past either transaction's input list or past the stored PSBT's
inputs are skipped by the loop, which `mergeStep`'s match mirrors). -/
def mergeInputsFrom (tx db_tx : Transaction) (db_ins : List PsbtIn) :
    Nat → List PsbtIn → List PsbtIn
  | _, [] => []
  | i, psbtin :: rest =>
    mergeStep tx db_tx db_ins i psbtin :: mergeInputsFrom tx db_tx db_ins (i + 1) rest

/-- The scan of the new-transaction branch of `update_spend`: the first
outpoint of the list that does not resolve in the fetched coins. -/
def firstMissing (coins : List (OutPoint × Coin)) : List OutPoint → Option OutPoint
  | [] => none
  | op :: rest =>
    if (alookup coins op).isNone then some op else firstMissing coins rest

/-- `DaemonControl::update_spend`. If a PSBT with the same unsigned-tx txid
is already stored, merge its `partial_sigs` into the incoming PSBT and
replace the stored entry; otherwise require every input's `previous_output`
to resolve in the coins table, then insert. -/
def update_spend (env : Env) (db : DbState) (psbt : Psbt) :
    Except CommandError Unit × DbState :=
  let tx := psbt.unsigned_tx
  let txid := env.txidOf tx
  match alookup db.spend_txs txid with
  | some db_psbt =>
    let merged : Psbt :=
      { psbt with
        inputs := mergeInputsFrom tx db_psbt.unsigned_tx db_psbt.inputs 0 psbt.inputs }
    (.ok (), store_spend env db merged)
  | none =>
    let outpoints := tx.input.map TxIn.previous_output
    let coins := coins_by_outpoints db.coins outpoints
    if coins.length ≠ outpoints.length then
      match firstMissing coins outpoints with
      | some op => (.error (.UnknownOutpoint op), db)
      | none => (.ok (), store_spend env db psbt)
    else
      (.ok (), store_spend env db psbt)

/-! ## `broadcast_spend` -/

/-- `Psbt::extract_tx` as consumed here: the finalized transaction handed to
the backend (witness data is opaque in this model). -/
def extract_tx (psbt : Psbt) : Transaction := psbt.unsigned_tx

/-- `DaemonControl::broadcast_spend`: load the stored PSBT by txid, finalize
it with Miniscript, extract and broadcast. The database is only read. -/
def broadcast_spend (env : Env) (bk : Backend) (db : DbState) (txid : Txid) :
    Except CommandError Unit × DbState :=
  match alookup db.spend_txs txid with
  | none => (.error (.UnknownSpend txid), db)
  | some spend_psbt =>
    match env.finalize spend_psbt with
    | .error e => (.error (.SpendFinalization e), db)
    | .ok finalized =>
      match bk.broadcast_tx (extract_tx finalized) with
      | .error e => (.error (.TxBroadcast e), db)
      | .ok () => (.ok (), db)

/-! ## `start_rescan` -/

/-- `DaemonControl::start_rescan`. -/
def start_rescan (bk : Backend) (db : DbState) (timestamp : Nat) :
    Except CommandError Unit × DbState :=
  if timestamp < MAINNET_GENESIS_TIME ∨ timestamp ≥ bk.tip_time then
    (.error (.InsaneRescanTimestamp timestamp), db)
  else if db.rescan_timestamp.isSome ∨ bk.rescan_progress.isSome then
    (.error .AlreadyRescanning, db)
  else
    match bk.start_rescan timestamp with
    | .error e => (.error (.RescanTrigger e), db)
    | .ok () => (.ok (), { db with rescan_timestamp := some timestamp })

/-! ## `gethistory` -/

/-- `commands::HistoryEventKind`. -/
inductive HistoryEventKind where
  | Receive
  | Spend
  deriving DecidableEq, Repr

/-- `commands::HistoryEvent`. -/
structure HistoryEvent where
  kind : HistoryEventKind
  date : Nat
  amount : Nat
  miner_fee : Option Nat
  txid : Txid
  coins : List OutPoint
  deriving DecidableEq, Repr

/-- `commands::GetHistoryResult`. -/
structure GetHistoryResult where
  events : List HistoryEvent
  deriving DecidableEq, Repr

/-- Append a coin to its txid's group in the spends map (creating the group
when absent), the effect of the preparatory loop's body in `gethistory`. -/
def addToGroups (groups : List (Txid × List Coin)) (txid : Txid) (c : Coin) :
    List (Txid × List Coin) :=
  match groups with
  | [] => [(txid, [c])]
  | (t, cs) :: rest =>
    if t = txid then (t, cs ++ [c]) :: rest
    else (t, cs) :: addToGroups rest txid c

/-- The body of the preparatory loop of `gethistory`: a coin with a
`spend_txid` and a `spend_block` whose time lies in `[start, end]` joins its
txid's group; any other coin is skipped. -/
def buildSpendsStep (start end_ : Nat) (groups : List (Txid × List Coin))
    (coin : Coin) : List (Txid × List Coin) :=
  match coin.spend_txid with
  | none => groups
  | some txid =>
    match coin.spend_block with
    | none => groups
    | some b =>
      if start ≤ b.time ∧ b.time ≤ end_ then addToGroups groups txid coin
      else groups

/-- The preparatory loop of `gethistory`: group the fetched coins by
`spend_txid`, keeping only coins whose `spend_block` time lies in
`[start, end]`. -/
def buildSpends (start end_ : Nat) (coins : List Coin) : List (Txid × List Coin) :=
  coins.foldl (buildSpendsStep start end_) []

/-- The receive-events loop body of `gethistory`: a confirmed, non-change
coin whose block time lies in `[start, end]` yields a `Receive` event. (The
`expect("Coin is confirmed")` on `block_time` is unreachable under the store
invariant `block_height set ⇔ block_time set`; a coin violating it is
skipped here.) -/
def receiveEvent (start end_ : Nat) (coin : Coin) : Option HistoryEvent :=
  if ¬ coin.is_confirmed ∨ coin.is_change then none
  else
    match coin.block_time with
    | none => none
    | some received_at =>
      if start ≤ received_at ∧ received_at ≤ end_ then
        some { kind := .Receive
               date := received_at
               amount := coin.amount
               miner_fee := none
               txid := coin.outpoint.txid
               coins := [coin.outpoint] }
      else none

/-- Whether output `vout` of the spend transaction is classified as change:
some fetched coin is a change coin at outpoint `(tx.txid(), vout)`. -/
def isChangeOutput (env : Env) (coins : List Coin) (tx : Transaction)
    (vout : Nat) : Bool :=
  coins.any (fun c =>
    c.outpoint.txid = env.txidOf tx ∧ c.outpoint.vout = vout ∧ c.is_change)

/-- The output-walking loop of a spend group in `gethistory`, from output
index `vout` on: the accumulated `(recipients_amount, change_amount)`. -/
def classifyFrom (env : Env) (coins : List Coin) (tx : Transaction) :
    Nat → List TxOut → Nat × Nat
  | _, [] => (0, 0)
  | vout, txout :: rest =>
    let acc := classifyFrom env coins tx (vout + 1) rest
    if isChangeOutput env coins tx vout then (acc.1, acc.2 + txout.value)
    else (acc.1 + txout.value, acc.2)

/-- The `(recipients_amount, change_amount)` pair computed for a spend
transaction by `gethistory`. -/
def classifyOutputs (env : Env) (coins : List Coin) (tx : Transaction) : Nat × Nat :=
  classifyFrom env coins tx 0 tx.output

/-- The spend-events loop body of `gethistory` for one group: skip the group
when the backend does not know the transaction; otherwise classify the
outputs, compute the fees as the spent coins' total minus the transaction's
total (`checked_sub(..).expect(..)`: the underflow panic corresponds to the
truncation of `Nat` subtraction here and is ruled out by hypothesis where it
matters), and emit a `Spend` event dated at the first grouped coin's
spend-block time. (The `expect`s on a non-empty group with a set
`spend_block` are unreachable by construction of the groups; a violating
group yields no event here.) -/
def spendEvent (env : Env) (bk : Backend) (coins : List Coin) (txid : Txid)
    (spent_coins : List Coin) : Option HistoryEvent :=
  match bk.wallet_transaction txid with
  | none => none
  | some spend_tx =>
    let amounts := classifyOutputs env coins spend_tx
    let fees := (spent_coins.map Coin.amount).sum - (amounts.1 + amounts.2)
    match spent_coins with
    | [] => none
    | first :: _ =>
      match first.spend_block with
      | none => none
      | some b =>
        some { kind := .Spend
               date := b.time
               amount := amounts.1
               miner_fee := some fees
               txid := txid
               coins := spent_coins.map Coin.outpoint }

/-- The sorting order of `gethistory`: `evt2.date.cmp(&evt1.date)`, i.e.
descending date. -/
def eventDateGe (a b : HistoryEvent) : Prop := b.date ≤ a.date

instance : DecidableRel eventDateGe := fun a b => Nat.decLe b.date a.date

instance : IsTotal HistoryEvent eventDateGe := ⟨fun a b => le_total b.date a.date⟩

instance : IsTrans HistoryEvent eventDateGe :=
  ⟨fun _ _ _ h1 h2 => le_trans h2 h1⟩

/-- `DaemonControl::gethistory`. `coins` is what
`db_conn.list_updated_coins(start, end, limit)` returned; the rest of the
command is a pure function of it and the backend: receive events, then
spend events per group, sorted by descending date (a stable sort, as Rust's
`sort_by`) and truncated to `limit`. -/
def gethistory (env : Env) (bk : Backend) (coins : List Coin)
    (start end_ limit : Nat) : GetHistoryResult :=
  let spends := buildSpends start end_ coins
  let receive_events := coins.filterMap (receiveEvent start end_)
  let spend_events := spends.filterMap (fun g => spendEvent env bk coins g.1 g.2)
  let events := receive_events ++ spend_events
  { events := (events.insertionSort eventDateGe).take limit }

/-! ## Concrete instances used by the witnesses -/

/-- A trivial environment: every library quantity is a constant. -/
def envW : Env :=
  { weight := fun _ => 0
    serTxOutSize := fun _ => 0
    txidOf := fun _ => 7
    finalize := fun p => .ok p }

/-- A backend with no rescan outstanding and a tip at time 2000000000. -/
def bkW : Backend :=
  { tip_time := 2000000000
    rescan_progress := none
    sync_progress := 0
    start_rescan := fun _ => .ok ()
    wallet_transaction := fun _ => none
    broadcast_tx := fun _ => .ok () }

/-- An empty database state. -/
def dbW : DbState :=
  { coins := []
    spend_txs := []
    receive_index := 0
    change_index := 0
    rescan_timestamp := none
    tip := none }

/-- An incoming PSBT with one input and one partial signature `(5, 1)`. -/
def pW : Psbt :=
  { unsigned_tx := { version := 2, lock_time := 0
                     input := [{ previous_output := ⟨3, 0⟩ }], output := [] }
    inputs := [{ partial_sigs := [(5, 1)] }]
    outputs := [] }

/-- A stored PSBT for the same transaction shape, holding the conflicting
partial signature `(5, 2)` for the same pubkey. -/
def qW : Psbt :=
  { unsigned_tx := { version := 2, lock_time := 0
                     input := [{ previous_output := ⟨3, 0⟩ }], output := [] }
    inputs := [{ partial_sigs := [(5, 2)] }]
    outputs := [] }

/-- The database holding `qW` under `pW`'s txid (`envW.txidOf` is the
constant 7). -/
def dbW1 : DbState := { dbW with spend_txs := [(7, qW)] }

/-- A PSBT spending an outpoint unknown to the (empty) coins table. -/
def pW10 : Psbt :=
  { unsigned_tx := { version := 2, lock_time := 0
                     input := [{ previous_output := ⟨999, 9⟩ }], output := [] }
    inputs := [{ partial_sigs := [] }]
    outputs := [] }

/-- A wallet configuration whose derived descriptors have a maximum
satisfaction weight of 272 weight units (68 vbytes per input). -/
def cfgW : Config :=
  { derive := fun _ i =>
      { script_pubkey := 1000 + i
        witness_script := 2000 + i
        max_sat_weight := 272
        bip32_derivations := [(5, 5)] } }

/-- An environment with a constant transaction weight of 400 (100 vbytes)
and a 43-byte serialized txout size. -/
def envW3 : Env :=
  { weight := fun _ => 400
    serTxOutSize := fun _ => 43
    txidOf := fun _ => 7
    finalize := fun p => .ok p }

/-- An unspent, unconfirmed coin of 100000 sats. -/
def coinW : Coin :=
  { outpoint := ⟨77, 0⟩
    block_height := none
    block_time := none
    amount := 100000
    derivation_index := 13
    is_change := false
    spend_txid := none
    spend_block := none }

/-- An unspent coin of 10210 sats. -/
def coinW2 : Coin :=
  { coinW with outpoint := ⟨78, 0⟩, amount := 10210 }

/-- The database holding `coinW` and `coinW2`. -/
def dbW3 : DbState := { dbW with coins := [(⟨77, 0⟩, coinW), (⟨78, 0⟩, coinW2)] }

/-- The PSBT `create_spend` builds when `coinW2` is spent to a single
10000-sat destination at 1 sat/vb under `envW3`/`cfgW` (no change: the
implied feerate equals the target). -/
def resW2 : CreateSpendResult :=
  { psbt :=
    { unsigned_tx :=
        { version := 2, lock_time := 0
          input := [{ previous_output := ⟨78, 0⟩ }]
          output := [{ value := 10000, script_pubkey := 500 }] }
      inputs := [{ witness_script := some 2013
                   witness_utxo := some { value := 10210, script_pubkey := 1013 }
                   bip32_derivation := [(5, 5)]
                   partial_sigs := [] }]
      outputs := [PsbtOut.mk] } }

/-- A confirmed, non-change coin received at time 3. -/
def coinH : Coin :=
  { outpoint := ⟨50, 0⟩
    block_height := some 1
    block_time := some 3
    amount := 1000
    derivation_index := 0
    is_change := false
    spend_txid := none
    spend_block := none }

/-- A coin spent by transaction 9, confirmed spent at time 3. -/
def coinS : Coin :=
  { outpoint := ⟨50, 1⟩
    block_height := some 1
    block_time := some 1
    amount := 1000000
    derivation_index := 1
    is_change := false
    spend_txid := some 9
    spend_block := some { height := 3, time := 3 } }

/-- The change coin created by the spend transaction: under `envW3` every
transaction has txid 7, so this sits at outpoint `(7, 1)`. -/
def coinC : Coin :=
  { outpoint := ⟨7, 1⟩
    block_height := some 3
    block_time := some 3
    amount := 995000
    derivation_index := 2
    is_change := true
    spend_txid := none
    spend_block := none }

/-- The spend transaction the backend returns for txid 9: a 4000-sat
recipient output and a 995000-sat change output. -/
def txS : Transaction :=
  { version := 2, lock_time := 0
    input := [{ previous_output := ⟨50, 1⟩ }]
    output := [{ value := 4000, script_pubkey := 600 },
               { value := 995000, script_pubkey := 1002 }] }

/-- A backend that knows `txS` under txid 9. -/
def bkW5 : Backend :=
  { bkW with wallet_transaction := fun t => if t = 9 then some txS else none }

/-! ## Lemmas about the association-list maps -/

theorem alookup_nil {ν : Type} (k : Txid) : alookup ([] : List (Txid × ν)) k = none := rfl

theorem alookup_cons {ν : Type} (kv : Txid × ν) (rest : List (Txid × ν)) (k : Txid) :
    alookup (kv :: rest) k = if kv.1 = k then some kv.2 else alookup rest k := rfl

theorem alookup_filter_ne {ν : Type} {k k' : Txid} (m : List (Txid × ν))
    (h : k' ≠ k) :
    alookup (m.filter (fun kv => kv.1 ≠ k)) k' = alookup m k' := by
  induction m with
  | nil => rfl
  | cons kv rest ih =>
    by_cases hk : kv.1 = k
    · rw [List.filter_cons_of_neg (by simp [hk]), ih, alookup_cons,
        if_neg (fun hc => h (by rw [← hc, hk]))]
    · rw [List.filter_cons_of_pos (by simp [hk]), alookup_cons, alookup_cons, ih]

theorem alookup_mapInsert {ν : Type} (m : List (Txid × ν)) (k k' : Txid) (v : ν) :
    alookup (mapInsert m k v) k' = if k = k' then some v else alookup m k' := by
  rw [mapInsert, alookup_cons]
  by_cases h : k = k'
  · rw [if_pos h, if_pos h]
  · rw [if_neg h, if_neg h]
    exact alookup_filter_ne m (fun hc => h hc.symm)

/-- Combine two lookups: the first map's binding wins when present. -/
def firstOf {ν : Type} : Option ν → Option ν → Option ν
  | some v, _ => some v
  | none, b => b

theorem alookup_mapExtend_not_mem {ν : Type} (o : List (Txid × ν)) (m : List (Txid × ν))
    (k : Txid) (h : ∀ kv ∈ o, kv.1 ≠ k) :
    alookup (mapExtend m o) k = alookup m k := by
  induction o generalizing m with
  | nil => rfl
  | cons kv rest ih =>
    have hstep : mapExtend m (kv :: rest) = mapExtend (mapInsert m kv.1 kv.2) rest := rfl
    rw [hstep, ih _ (fun kv' h' => h kv' (List.mem_cons_of_mem _ h')),
      alookup_mapInsert]
    exact if_neg (h kv (List.mem_cons_self _ _))

theorem alookup_mapExtend {ν : Type} (o : List (Txid × ν)) (m : List (Txid × ν))
    (k : Txid) (hnd : (o.map Prod.fst).Nodup) :
    alookup (mapExtend m o) k = firstOf (alookup o k) (alookup m k) := by
  induction o generalizing m with
  | nil => rfl
  | cons kv rest ih =>
    have hstep : mapExtend m (kv :: rest) = mapExtend (mapInsert m kv.1 kv.2) rest := rfl
    rw [List.map_cons, List.nodup_cons] at hnd
    by_cases hk : kv.1 = k
    · have hrest : ∀ kv' ∈ rest, kv'.1 ≠ k := by
        intro kv' h' hc
        exact hnd.1 (by rw [hk, ← hc]; exact List.mem_map_of_mem Prod.fst h')
      rw [hstep, alookup_mapExtend_not_mem rest _ k hrest, alookup_mapInsert,
        if_pos hk, alookup_cons, if_pos hk]
      rfl
    · rw [hstep, ih _ hnd.2, alookup_cons, if_neg hk]
      have hins : alookup (mapInsert m kv.1 kv.2) k = alookup m k := by
        rw [alookup_mapInsert, if_neg hk]
      rw [hins]

theorem mergeInputsFrom_get? (tx db_tx : Transaction) (db_ins : List PsbtIn) :
    ∀ (pins : List PsbtIn) (n i : Nat),
      (mergeInputsFrom tx db_tx db_ins n pins).get? i =
        (pins.get? i).map (mergeStep tx db_tx db_ins (n + i)) := by
  intro pins
  induction pins with
  | nil => intro n i; rfl
  | cons pin rest ih =>
    intro n i
    cases i with
    | zero => rfl
    | succ j =>
      have hstep : (mergeInputsFrom tx db_tx db_ins n (pin :: rest)).get? (j + 1) =
          (mergeInputsFrom tx db_tx db_ins (n + 1) rest).get? j := rfl
      rw [hstep, ih (n + 1) j]
      have hn : n + 1 + j = n + (j + 1) := by omega
      rw [hn]
      rfl

/-! ## Claim C9 -/

/-- Claim C9: `get_info` reports no rescan progress whenever the store's
rescan timestamp is unset, whatever the backend answers; and when the store
has a rescan timestamp but the backend reports no progress, `get_info`
reports a progress of 1.0. -/
theorem c9_get_info_rescan_progress (bk : Backend) (db : DbState) :
    (db.rescan_timestamp = none → (get_info bk db).rescan_progress = none) ∧
    (∀ ts, db.rescan_timestamp = some ts → bk.rescan_progress = none →
      (get_info bk db).rescan_progress = some 1) := by
  constructor
  · intro h
    simp [get_info, h]
  · intro ts h hb
    simp [get_info, h, hb]

/-- Witness for C9 at a concrete backend and database. -/
theorem c9_witness :
    (get_info bkW { dbW with rescan_timestamp := some 5 }).rescan_progress = some 1 :=
  (c9_get_info_rescan_progress bkW { dbW with rescan_timestamp := some 5 }).2 5 rfl rfl

/-! ## Claim C7 -/

/-- Claim C7: `start_rescan` returns `InsaneRescanTimestamp` exactly when
the timestamp is before the mainnet genesis time or not before the
backend's tip time; past that gate it returns `AlreadyRescanning` exactly
when the store's rescan timestamp is set or the backend reports a rescan in
progress; past both gates it surfaces a backend failure as `RescanTrigger`
with the store untouched, and persists `set_rescan(timestamp)` exactly when
the backend call succeeds. -/
theorem c7_start_rescan (bk : Backend) (db : DbState) (ts : Nat) :
    ((start_rescan bk db ts).1 = .error (.InsaneRescanTimestamp ts) ↔
      ts < MAINNET_GENESIS_TIME ∨ bk.tip_time ≤ ts) ∧
    (MAINNET_GENESIS_TIME ≤ ts → ts < bk.tip_time →
      ((start_rescan bk db ts).1 = .error .AlreadyRescanning ↔
        (db.rescan_timestamp.isSome ∨ bk.rescan_progress.isSome))) ∧
    (MAINNET_GENESIS_TIME ≤ ts → ts < bk.tip_time →
      db.rescan_timestamp = none → bk.rescan_progress = none →
      (∀ e, bk.start_rescan ts = .error e →
        start_rescan bk db ts = (.error (.RescanTrigger e), db)) ∧
      (bk.start_rescan ts = .ok () →
        start_rescan bk db ts = (.ok (), { db with rescan_timestamp := some ts }))) := by
  refine ⟨?_, ?_, ?_⟩
  · by_cases h1 : ts < MAINNET_GENESIS_TIME ∨ ts ≥ bk.tip_time
    · exact iff_of_true (by simp [start_rescan, if_pos h1]) h1
    · refine iff_of_false ?_ h1
      simp only [start_rescan, if_neg h1]
      by_cases h2 : db.rescan_timestamp.isSome ∨ bk.rescan_progress.isSome
      · simp [if_pos h2]
      · simp only [if_neg h2]
        cases hr : bk.start_rescan ts <;> simp
  · intro hg hlt
    have h1 : ¬ (ts < MAINNET_GENESIS_TIME ∨ ts ≥ bk.tip_time) := by
      push_neg
      exact ⟨by omega, hlt⟩
    simp only [start_rescan, if_neg h1]
    by_cases h2 : db.rescan_timestamp.isSome ∨ bk.rescan_progress.isSome
    · exact iff_of_true (by simp [if_pos h2]) h2
    · refine iff_of_false ?_ h2
      simp only [if_neg h2]
      cases hr : bk.start_rescan ts <;> simp
  · intro hg hlt hdb hbk
    have h1 : ¬ (ts < MAINNET_GENESIS_TIME ∨ ts ≥ bk.tip_time) := by
      push_neg
      exact ⟨by omega, hlt⟩
    have h2 : ¬ (db.rescan_timestamp.isSome ∨ bk.rescan_progress.isSome) := by
      simp [hdb, hbk]
    constructor
    · intro e he
      simp [start_rescan, if_neg h1, if_neg h2, he]
    · intro he
      simp [start_rescan, if_neg h1, if_neg h2, he]

/-- Witness for C7 at a concrete backend, database and timestamp. -/
theorem c7_witness :
    start_rescan bkW dbW 1231006505 = (.ok (), { dbW with rescan_timestamp := some 1231006505 }) :=
  ((c7_start_rescan bkW dbW 1231006505).2.2 (by decide) (by decide) rfl rfl).2 rfl

/-! ## Claim C8 -/

/-- Claim C8: `broadcast_spend` returns `UnknownSpend(txid)` exactly when no
PSBT with that txid is stored, and in every case — success, finalization
failure or broadcast failure — it leaves the database (in particular the
stored PSBT set) unchanged. -/
theorem c8_broadcast_spend (env : Env) (bk : Backend) (db : DbState) (txid : Txid) :
    ((broadcast_spend env bk db txid).1 = .error (.UnknownSpend txid) ↔
      alookup db.spend_txs txid = none) ∧
    (broadcast_spend env bk db txid).2 = db := by
  cases h : alookup db.spend_txs txid with
  | none => simp [broadcast_spend, h]
  | some psbt =>
    cases hf : env.finalize psbt with
    | error e => simp [broadcast_spend, h, hf]
    | ok fin =>
      cases hb : bk.broadcast_tx (extract_tx fin) with
      | error e => simp [broadcast_spend, h, hf, hb]
      | ok u => cases u; simp [broadcast_spend, h, hf, hb]

/-! ## Claim C10 -/

/-- Claim C10: when a PSBT with the incoming PSBT's unsigned-tx txid is
already stored, `update_spend` returns `Ok` (in particular never
`UnknownOutpoint`): the coins-table check of the inputs is only performed
for a txid not yet stored. -/
theorem c10_update_spend_existing (env : Env) (db : DbState) (p q : Psbt)
    (hq : alookup db.spend_txs (env.txidOf p.unsigned_tx) = some q) :
    (update_spend env db p).1 = .ok () := by
  simp [update_spend, hq]

/-- Witness for C10: the stored txid matches even though the incoming PSBT
spends an outpoint absent from the (empty) coins table. -/
theorem c10_witness : (update_spend envW { dbW with spend_txs := [(7, qW)] } pW10).1 = .ok () :=
  c10_update_spend_existing envW { dbW with spend_txs := [(7, qW)] } pW10 qW rfl

/-! ## Claim C1 -/

/-- Counterexample to claim C1 as stated: `pW` (incoming) and `qW` (stored)
both carry a signature for pubkey 5 on input 0, whose `previous_output`s
match; after `update_spend pW` the stored PSBT holds the STORED signature 2
for pubkey 5, not the incoming signature 1, so the incoming entry does not
win the conflict. -/
theorem c1_counterexample :
    alookup dbW1.spend_txs (envW.txidOf pW.unsigned_tx) = some qW ∧
    (pW.inputs.map PsbtIn.partial_sigs = [[(5, 1)]] ∧
      qW.inputs.map PsbtIn.partial_sigs = [[(5, 2)]]) ∧
    ((update_spend envW dbW1 pW).2.spend_txs.map
      (fun kv => (kv.1, kv.2.inputs.map PsbtIn.partial_sigs))) = [(7, [[(5, 2)]])] ∧
    ([[(5, 2)]] : List (List (Nat × Nat))) ≠ [[(5, 1)]] := by
  decide

/-- Claim C1 as amended: when a PSBT `q` with the incoming PSBT `p`'s
unsigned-tx txid is already stored, `update_spend p` returns `Ok`, replaces
the stored entry unconditionally with the merged PSBT, and at each input
position where `p`'s and `q`'s inputs have the same `previous_output` the
merged `partial_sigs` is the union by pubkey of both, with the STORED
(`q`'s) entry winning when both carry a signature for the same pubkey. -/
theorem c1_update_spend_merge (env : Env) (db : DbState) (p q : Psbt)
    (hq : alookup db.spend_txs (env.txidOf p.unsigned_tx) = some q) :
    (update_spend env db p).1 = .ok () ∧
    alookup (update_spend env db p).2.spend_txs (env.txidOf p.unsigned_tx) =
      some { p with
             inputs := mergeInputsFrom p.unsigned_tx q.unsigned_tx q.inputs 0 p.inputs } ∧
    (∀ i pin txin db_txin db_pin,
      p.inputs.get? i = some pin →
      p.unsigned_tx.input.get? i = some txin →
      q.unsigned_tx.input.get? i = some db_txin →
      q.inputs.get? i = some db_pin →
      txin.previous_output = db_txin.previous_output →
      (db_pin.partial_sigs.map Prod.fst).Nodup →
      ∃ merged,
        (mergeInputsFrom p.unsigned_tx q.unsigned_tx q.inputs 0 p.inputs).get? i =
          some merged ∧
        ∀ k, alookup merged.partial_sigs k =
          firstOf (alookup db_pin.partial_sigs k) (alookup pin.partial_sigs k)) := by
  refine ⟨by simp [update_spend, hq], ?_, ?_⟩
  · simp [update_spend, hq, store_spend, alookup_mapInsert]
  · intro i pin txin db_txin db_pin hpin htxin hdbtxin hdbpin hmatch hnd
    refine ⟨mergeStep p.unsigned_tx q.unsigned_tx q.inputs i pin, ?_, ?_⟩
    · rw [mergeInputsFrom_get? p.unsigned_tx q.unsigned_tx q.inputs p.inputs 0 i,
        hpin]
      simp
    · intro k
      simp only [mergeStep, htxin, hdbtxin, hdbpin, if_pos hmatch]
      exact alookup_mapExtend db_pin.partial_sigs pin.partial_sigs k hnd

/-- Witness for C1's amended theorem at the concrete merge instance. -/
theorem c1_witness :
    alookup (update_spend envW dbW1 pW).2.spend_txs (envW.txidOf pW.unsigned_tx) =
      some { pW with
             inputs := mergeInputsFrom pW.unsigned_tx qW.unsigned_tx qW.inputs 0 pW.inputs } :=
  (c1_update_spend_merge envW dbW1 pW qW rfl).2.1

/-! ## Lemmas about the `create_spend` pipeline -/

theorem finishSpend_snd (env : Env) (tx : Transaction) (pins : List PsbtIn)
    (pouts : List PsbtOut) (db : DbState) :
    (finishSpend env tx pins pouts db).2 = db := by
  unfold finishSpend
  cases h : sanity_check_psbt env { unsigned_tx := tx, inputs := pins, outputs := pouts } with
  | error e => simp [h]
  | ok u => cases u; simp [h]

theorem sanity_check_psbt_error (env : Env) (psbt : Psbt) (e : CommandError)
    (h : sanity_check_psbt env psbt = .error e) :
    e = .SanityCheckFailure psbt := by
  simp only [sanity_check_psbt] at h
  split at h
  · exact (Except.error.inj h).symm
  · split at h
    · exact (Except.error.inj h).symm
    · split at h
      · exact (Except.error.inj h).symm
      · split at h
        · exact (Except.error.inj h).symm
        · split at h
          · exact (Except.error.inj h).symm
          · split at h
            · exact absurd h (by simp)
            · exact (Except.error.inj h).symm

theorem finishSpend_fst_ok (env : Env) (tx : Transaction) (pins : List PsbtIn)
    (pouts : List PsbtOut) (db : DbState) (res : CreateSpendResult)
    (h : (finishSpend env tx pins pouts db).1 = .ok res) :
    res.psbt = { unsigned_tx := tx, inputs := pins, outputs := pouts } ∧
    sanity_check_psbt env res.psbt = .ok () := by
  cases hs : sanity_check_psbt env { unsigned_tx := tx, inputs := pins, outputs := pouts } with
  | error e => simp [finishSpend, hs] at h
  | ok u =>
    cases u
    simp only [finishSpend, hs] at h
    have hres : res = { psbt := { unsigned_tx := tx, inputs := pins, outputs := pouts } } :=
      (Except.ok.inj h).symm
    subst hres
    exact ⟨rfl, hs⟩

theorem finishSpend_fst_error (env : Env) (tx : Transaction) (pins : List PsbtIn)
    (pouts : List PsbtOut) (db : DbState) (e : CommandError)
    (h : (finishSpend env tx pins pouts db).1 = .error e) :
    e = .SanityCheckFailure { unsigned_tx := tx, inputs := pins, outputs := pouts } := by
  cases hs : sanity_check_psbt env { unsigned_tx := tx, inputs := pins, outputs := pouts } with
  | error e' =>
    simp only [finishSpend, hs] at h
    rw [← Except.error.inj h]
    exact sanity_check_psbt_error env _ e' hs
  | ok u => cases u; simp [finishSpend, hs] at h

theorem check_output_value_error (v : Nat) (e : CommandError)
    (h : check_output_value v = .error e) : e = .InvalidOutputValue v := by
  unfold check_output_value at h
  split at h
  · exact (Except.error.inj h).symm
  · exact absurd h (by simp)

theorem changeAndFinish_snd (env : Env) (cfg : Config) (db : DbState)
    (tx : Transaction) (pins : List PsbtIn) (pouts : List PsbtOut)
    (nv af fr : Nat) :
    (changeAndFinish env cfg db tx pins pouts nv af fr).2 =
      if af / nv > fr then { db with change_index := db.change_index + 1 }
      else db := by
  simp only [changeAndFinish]
  by_cases h1 : af / nv > fr
  · rw [if_pos h1, if_pos h1]
    by_cases h2 : af / (nv + env.serTxOutSize
        { value := 2 ^ 64 - 1, script_pubkey := (cfg.derive true db.change_index).script_pubkey }) > fr
    · rw [if_pos h2]
      by_cases h3 : af - (nv + env.serTxOutSize
          { value := 2 ^ 64 - 1, script_pubkey := (cfg.derive true db.change_index).script_pubkey }) * fr
          ≥ DUST_OUTPUT_SATS
      · rw [if_pos h3]
        cases hc : check_output_value (af - (nv + env.serTxOutSize
            { value := 2 ^ 64 - 1,
              script_pubkey := (cfg.derive true db.change_index).script_pubkey }) * fr) with
        | error e => simp [hc]
        | ok u => cases u; simp [hc, finishSpend_snd]
      · rw [if_neg h3]
        exact finishSpend_snd env tx pins pouts _
    · rw [if_neg h2]
      exact finishSpend_snd env tx pins pouts _
  · rw [if_neg h1, if_neg h1]
    exact finishSpend_snd env tx pins pouts db

theorem changeAndFinish_fst_not_insufficient (env : Env) (cfg : Config)
    (db : DbState) (tx : Transaction) (pins : List PsbtIn) (pouts : List PsbtOut)
    (nv af fr a b c : Nat) :
    (changeAndFinish env cfg db tx pins pouts nv af fr).1 ≠
      .error (.InsufficientFunds a b c) := by
  intro h
  simp only [changeAndFinish] at h
  split at h
  · split at h
    · split at h
      · split at h
        · rename_i e heq
          simp only at h
          rw [check_output_value_error _ _ heq] at h
          exact absurd h (by simp)
        · exact absurd (finishSpend_fst_error env _ pins _ _ _ h) (by simp)
      · exact absurd (finishSpend_fst_error env _ pins _ _ _ h) (by simp)
    · exact absurd (finishSpend_fst_error env _ pins _ _ _ h) (by simp)
  · exact absurd (finishSpend_fst_error env _ pins _ _ _ h) (by simp)

/-! ## Claim C6 -/

/-- Claim C6: `create_spend` leaves the database untouched except that the
change derivation index is incremented (and persisted) exactly when the run
enters the change branch (`nochange_feerate_vb > feerate_vb`); the
increment is kept even when no change output is ultimately appended. -/
theorem c6_change_index_frame (env : Env) (cfg : Config) (db : DbState)
    (ops : List OutPoint) (dests : List (Nat × Nat)) (fr : Nat) :
    (create_spend env cfg db ops dests fr).2 =
      if entersChangeBranch env cfg db ops dests fr then
        { db with change_index := db.change_index + 1 }
      else db := by
  by_cases h0 : ops.isEmpty
  · simp [create_spend, entersChangeBranch, h0]
  · by_cases h1 : dests.isEmpty
    · simp [create_spend, entersChangeBranch, h0, h1]
    · by_cases h2 : fr < 1
      · simp [create_spend, entersChangeBranch, h0, h1, h2]
      · cases hin : assembleInputs cfg (coins_by_outpoints db.coins ops) ops with
        | error e => simp [create_spend, entersChangeBranch, h0, h1, h2, hin]
        | ok v =>
          obtain ⟨inv, satvb, txins, pins⟩ := v
          cases hout : assembleOutputs dests with
          | error e => simp [create_spend, entersChangeBranch, h0, h1, h2, hin, hout]
          | ok w =>
            obtain ⟨outv, touts, pouts⟩ := w
            by_cases hlt : inv < outv
            · simp [create_spend, entersChangeBranch, h0, h1, h2, hin, hout, hlt]
            · by_cases h9 : ((inv - outv) /
                  (tx_vbytes env
                    { version := 2, lock_time := 0, input := txins, output := touts } +
                    satvb)) * 10 < fr * 9
              · simp [create_spend, entersChangeBranch, h0, h1, h2, hin, hout, hlt, h9]
              · by_cases hc : (inv - outv) /
                    (tx_vbytes env
                      { version := 2, lock_time := 0, input := txins, output := touts } +
                      satvb) > fr
                · simp [create_spend, entersChangeBranch, h0, h1, h2, hin, hout, hlt,
                    h9, hc, changeAndFinish_snd]
                · simp [create_spend, entersChangeBranch, h0, h1, h2, hin, hout, hlt,
                    h9, hc, changeAndFinish_snd]

/-! ## Claim C3 -/

/-- Claim C3: under the shape and coin-level preconditions (non-empty
outpoints and destinations, feerate at least 1, every outpoint resolving to
an unspent stored coin and every destination value passing
`check_output_value` — i.e. the two assembly phases succeed),
`create_spend` returns `InsufficientFunds(in_value, out_value, feerate)`
exactly when `in_value < out_value`, or
`(abs_fee / nochange_vb) * 10 < feerate * 9` where
`abs_fee = in_value - out_value` and
`nochange_vb = tx_vbytes(tx) + sat_vb`. -/
theorem c3_insufficient_funds (env : Env) (cfg : Config) (db : DbState)
    (ops : List OutPoint) (dests : List (Nat × Nat)) (fr : Nat)
    (inv satvb : Nat) (txins : List TxIn) (pins : List PsbtIn)
    (outv : Nat) (touts : List TxOut) (pouts : List PsbtOut)
    (hops : ops ≠ []) (hdests : dests ≠ []) (hfr : 1 ≤ fr)
    (hin : assembleInputs cfg (coins_by_outpoints db.coins ops) ops =
      .ok (inv, satvb, txins, pins))
    (hout : assembleOutputs dests = .ok (outv, touts, pouts)) :
    (create_spend env cfg db ops dests fr).1 =
        .error (.InsufficientFunds inv outv fr) ↔
      (inv < outv ∨
        ((inv - outv) /
            (tx_vbytes env
              { version := 2, lock_time := 0, input := txins, output := touts } +
              satvb)) * 10 < fr * 9) := by
  have h0 : ¬ ops.isEmpty = true := by
    cases ops with
    | nil => exact absurd rfl hops
    | cons a l => simp
  have h1 : ¬ dests.isEmpty = true := by
    cases dests with
    | nil => exact absurd rfl hdests
    | cons a l => simp
  have h2 : ¬ (fr < 1) := by omega
  by_cases hlt : inv < outv
  · refine iff_of_true ?_ (Or.inl hlt)
    simp [create_spend, h0, h1, h2, hin, hout, hlt]
  · by_cases h9 : ((inv - outv) /
        (tx_vbytes env
          { version := 2, lock_time := 0, input := txins, output := touts } +
          satvb)) * 10 < fr * 9
    · refine iff_of_true ?_ (Or.inr h9)
      simp [create_spend, h0, h1, h2, hin, hout, hlt, h9]
    · refine iff_of_false ?_ (by tauto)
      have hred : (create_spend env cfg db ops dests fr).1 =
          (changeAndFinish env cfg db
            { version := 2, lock_time := 0, input := txins, output := touts }
            pins pouts
            (tx_vbytes env
              { version := 2, lock_time := 0, input := txins, output := touts } +
              satvb)
            (inv - outv) fr).1 := by
        simp [create_spend, h0, h1, h2, hin, hout, hlt, h9]
      rw [hred]
      exact changeAndFinish_fst_not_insufficient env cfg db _ pins pouts _ _ fr inv outv fr

/-- Witness for C3: one 100000-sat coin spent to a single 10000-sat
destination at 1 sat/vb is not an `InsufficientFunds` case. -/
theorem c3_witness :
    ((create_spend envW3 cfgW dbW3 [⟨77, 0⟩] [(500, 10000)] 1).1 =
        .error (.InsufficientFunds 100000 10000 1) ↔
      (100000 < 10000 ∨
        ((100000 - 10000) /
            (tx_vbytes envW3
              { version := 2, lock_time := 0
                input := [{ previous_output := ⟨77, 0⟩ }]
                output := [{ value := 10000, script_pubkey := 500 }] } +
              68)) * 10 < 1 * 9)) :=
  c3_insufficient_funds envW3 cfgW dbW3 [⟨77, 0⟩] [(500, 10000)] 1
    100000 68 [{ previous_output := ⟨77, 0⟩ }]
    [{ witness_script := some 2013
       witness_utxo := some { value := 100000, script_pubkey := 1013 }
       bip32_derivation := [(5, 5)]
       partial_sigs := [] }]
    10000 [{ value := 10000, script_pubkey := 500 }] [PsbtOut.mk]
    (by decide) (by decide) (by decide) rfl rfl

/-! ## Claim C2 -/

theorem psbt_in_value_spec (l : List PsbtIn) (v : Nat)
    (h : psbt_in_value l = some v) :
    (∀ pin ∈ l, pin.bip32_derivation ≠ [] ∧ pin.witness_utxo.isSome) ∧
    v = (l.map (fun pin => ((pin.witness_utxo).map TxOut.value).getD 0)).sum := by
  induction l generalizing v with
  | nil =>
    simp only [psbt_in_value, Option.some.injEq] at h
    simp [← h]
  | cons pin rest ih =>
    simp only [psbt_in_value] at h
    split at h
    · exact absurd h (by simp)
    · rcases hw : pin.witness_utxo with _ | u
      · rw [hw] at h
        exact absurd h (by simp)
      · rw [hw] at h
        rcases Option.map_eq_some'.mp h with ⟨s, hs, hv⟩
        obtain ⟨hall, hsum⟩ := ih s hs
        refine ⟨?_, ?_⟩
        · intro pin' hmem
          rcases List.mem_cons.mp hmem with hp | hp
          · subst hp
            refine ⟨?_, by rw [hw]; rfl⟩
            rename_i hne
            intro hnil
            exact hne (by simp [hnil])
          · exact hall pin' hp
        · rw [List.map_cons, List.sum_cons, hw, ← hv, hsum]
          rfl

theorem sanity_check_psbt_ok (env : Env) (psbt : Psbt)
    (h : sanity_check_psbt env psbt = .ok ()) :
    psbt.inputs.length = psbt.unsigned_tx.input.length ∧
    psbt.outputs.length = psbt.unsigned_tx.output.length ∧
    (∀ pin ∈ psbt.inputs, pin.bip32_derivation ≠ [] ∧ pin.witness_utxo.isSome) ∧
    (psbt.unsigned_tx.output.map TxOut.value).sum ≤
      (psbt.inputs.map (fun pin => ((pin.witness_utxo).map TxOut.value).getD 0)).sum ∧
    (psbt.inputs.map (fun pin => ((pin.witness_utxo).map TxOut.value).getD 0)).sum -
        (psbt.unsigned_tx.output.map TxOut.value).sum ≤ MAX_FEE ∧
    1 ≤ ((psbt.inputs.map (fun pin => ((pin.witness_utxo).map TxOut.value).getD 0)).sum -
        (psbt.unsigned_tx.output.map TxOut.value).sum) /
      tx_vbytes env psbt.unsigned_tx ∧
    ((psbt.inputs.map (fun pin => ((pin.witness_utxo).map TxOut.value).getD 0)).sum -
        (psbt.unsigned_tx.output.map TxOut.value).sum) /
      tx_vbytes env psbt.unsigned_tx ≤ MAX_FEERATE := by
  simp only [sanity_check_psbt] at h
  split at h
  · exact absurd h (by simp)
  · rename_i hlen
    push_neg at hlen
    split at h
    · exact absurd h (by simp)
    · rename_i value_in hv
      obtain ⟨hall, hsum⟩ := psbt_in_value_spec psbt.inputs value_in hv
      split at h
      · exact absurd h (by simp)
      · rename_i hge
        split at h
        · exact absurd h (by simp)
        · rename_i hfee
          split at h
          · exact absurd h (by simp)
          · rename_i hvb
            split at h
            · rename_i hrange
              subst hsum
              exact ⟨hlen.1, hlen.2, hall, by omega, by omega, hrange.1, hrange.2⟩
            · exact absurd h (by simp)

theorem changeAndFinish_fst_ok (env : Env) (cfg : Config) (db : DbState)
    (tx : Transaction) (pins : List PsbtIn) (pouts : List PsbtOut)
    (nv af fr : Nat) (res : CreateSpendResult)
    (h : (changeAndFinish env cfg db tx pins pouts nv af fr).1 = .ok res) :
    sanity_check_psbt env res.psbt = .ok () := by
  simp only [changeAndFinish] at h
  split at h
  · split at h
    · split at h
      · split at h
        · simp at h
        · exact (finishSpend_fst_ok env _ pins _ _ res h).2
      · exact (finishSpend_fst_ok env _ pins _ _ res h).2
    · exact (finishSpend_fst_ok env _ pins _ _ res h).2
  · exact (finishSpend_fst_ok env _ pins _ _ res h).2

/-- Claim C2: every PSBT returned by a successful `create_spend` satisfies
the sanity invariants: as many PSBT inputs/outputs as transaction
inputs/outputs, every PSBT input carrying a non-empty `bip32_derivation`
and a `witness_utxo`, summed witness-utxo values at least the summed
transaction output values, their difference at most `MAX_FEE`
(100,000,000 sats), and that difference divided by the transaction's
vbytes lying in `[1, MAX_FEERATE]`. -/
theorem c2_create_spend_sane (env : Env) (cfg : Config) (db : DbState)
    (ops : List OutPoint) (dests : List (Nat × Nat)) (fr : Nat)
    (res : CreateSpendResult)
    (h : (create_spend env cfg db ops dests fr).1 = .ok res) :
    res.psbt.inputs.length = res.psbt.unsigned_tx.input.length ∧
    res.psbt.outputs.length = res.psbt.unsigned_tx.output.length ∧
    (∀ pin ∈ res.psbt.inputs, pin.bip32_derivation ≠ [] ∧ pin.witness_utxo.isSome) ∧
    (res.psbt.unsigned_tx.output.map TxOut.value).sum ≤
      (res.psbt.inputs.map (fun pin => ((pin.witness_utxo).map TxOut.value).getD 0)).sum ∧
    (res.psbt.inputs.map (fun pin => ((pin.witness_utxo).map TxOut.value).getD 0)).sum -
        (res.psbt.unsigned_tx.output.map TxOut.value).sum ≤ MAX_FEE ∧
    1 ≤ ((res.psbt.inputs.map (fun pin => ((pin.witness_utxo).map TxOut.value).getD 0)).sum -
        (res.psbt.unsigned_tx.output.map TxOut.value).sum) /
      tx_vbytes env res.psbt.unsigned_tx ∧
    ((res.psbt.inputs.map (fun pin => ((pin.witness_utxo).map TxOut.value).getD 0)).sum -
        (res.psbt.unsigned_tx.output.map TxOut.value).sum) /
      tx_vbytes env res.psbt.unsigned_tx ≤ MAX_FEERATE := by
  apply sanity_check_psbt_ok env res.psbt
  by_cases h0 : ops.isEmpty
  · simp [create_spend, h0] at h
  · by_cases h1 : dests.isEmpty
    · simp [create_spend, h0, h1] at h
    · by_cases h2 : fr < 1
      · simp [create_spend, h0, h1, h2] at h
      · rcases hin : assembleInputs cfg (coins_by_outpoints db.coins ops) ops with e | v
        · simp [create_spend, h0, h1, h2, hin] at h
        · obtain ⟨inv, satvb, txins, pins⟩ := v
          rcases hout : assembleOutputs dests with e | w
          · simp [create_spend, h0, h1, h2, hin, hout] at h
          · obtain ⟨outv, touts, pouts⟩ := w
            by_cases hlt : inv < outv
            · simp [create_spend, h0, h1, h2, hin, hout, hlt] at h
            · by_cases h9 : ((inv - outv) /
                  (tx_vbytes env
                    { version := 2, lock_time := 0, input := txins, output := touts } +
                    satvb)) * 10 < fr * 9
              · simp [create_spend, h0, h1, h2, hin, hout, hlt, h9] at h
              · have hred : (create_spend env cfg db ops dests fr).1 =
                    (changeAndFinish env cfg db
                      { version := 2, lock_time := 0, input := txins, output := touts }
                      pins pouts
                      (tx_vbytes env
                        { version := 2, lock_time := 0, input := txins, output := touts } +
                        satvb)
                      (inv - outv) fr).1 := by
                  simp [create_spend, h0, h1, h2, hin, hout, hlt, h9]
                rw [hred] at h
                exact changeAndFinish_fst_ok env cfg db _ pins pouts _ _ fr res h

/-- Witness for C2: the sanity facts at the concrete no-change spend of
`coinW2`. -/
theorem c2_witness :
    resW2.psbt.inputs.length = resW2.psbt.unsigned_tx.input.length :=
  (c2_create_spend_sane envW3 cfgW dbW3 [⟨78, 0⟩] [(500, 10000)] 1 resW2 rfl).1

/-! ## Claim C4 -/

theorem receiveEvent_date (start end_ : Nat) (c : Coin) (e : HistoryEvent)
    (h : receiveEvent start end_ c = some e) :
    start ≤ e.date ∧ e.date ≤ end_ := by
  simp only [receiveEvent] at h
  split at h
  · exact absurd h (by simp)
  · split at h
    · exact absurd h (by simp)
    · rename_i t ht
      split at h
      · rename_i hr
        obtain rfl := Option.some.inj h
        exact hr
      · exact absurd h (by simp)

theorem addToGroups_sound {P : Coin → Prop} (groups : List (Txid × List Coin))
    (t : Txid) (c : Coin)
    (hg : ∀ g ∈ groups, ∀ cc ∈ g.2, P cc) (hc : P c) :
    ∀ g ∈ addToGroups groups t c, ∀ cc ∈ g.2, P cc := by
  induction groups with
  | nil =>
    intro g hgmem cc hcc
    simp only [addToGroups, List.mem_singleton] at hgmem
    subst hgmem
    rcases List.mem_singleton.mp hcc with rfl
    exact hc
  | cons kv rest ih =>
    obtain ⟨t', cs'⟩ := kv
    intro g hgmem cc hcc
    simp only [addToGroups] at hgmem
    split at hgmem
    · rcases List.mem_cons.mp hgmem with rfl | hmem
      · rcases List.mem_append.mp hcc with hcs | hcs
        · exact hg (t', cs') (List.mem_cons_self _ _) cc hcs
        · rcases List.mem_singleton.mp hcs with rfl
          exact hc
      · exact hg g (List.mem_cons_of_mem _ hmem) cc hcc
    · rcases List.mem_cons.mp hgmem with rfl | hmem
      · exact hg (t', cs') (List.mem_cons_self _ _) cc hcc
      · exact ih (fun g' hg' => hg g' (List.mem_cons_of_mem _ hg')) g hmem cc hcc

theorem buildSpendsStep_sound (start end_ : Nat)
    (groups : List (Txid × List Coin)) (coin : Coin)
    (hg : ∀ g ∈ groups, ∀ cc ∈ g.2, ∃ b : SpendBlock,
      cc.spend_block = some b ∧ start ≤ b.time ∧ b.time ≤ end_) :
    ∀ g ∈ buildSpendsStep start end_ groups coin, ∀ cc ∈ g.2,
      ∃ b : SpendBlock, cc.spend_block = some b ∧ start ≤ b.time ∧ b.time ≤ end_ := by
  unfold buildSpendsStep
  split
  · exact hg
  · rename_i txid htx
    split
    · exact hg
    · rename_i b hb
      split
      · rename_i hr
        exact addToGroups_sound groups txid coin hg ⟨b, hb, hr.1, hr.2⟩
      · exact hg

theorem buildSpends_sound (start end_ : Nat) (coins : List Coin) :
    ∀ g ∈ buildSpends start end_ coins, ∀ cc ∈ g.2,
      ∃ b : SpendBlock, cc.spend_block = some b ∧ start ≤ b.time ∧ b.time ≤ end_ := by
  have haux : ∀ (cs : List Coin) (acc : List (Txid × List Coin)),
      (∀ g ∈ acc, ∀ cc ∈ g.2, ∃ b : SpendBlock,
        cc.spend_block = some b ∧ start ≤ b.time ∧ b.time ≤ end_) →
      ∀ g ∈ cs.foldl (buildSpendsStep start end_) acc, ∀ cc ∈ g.2,
        ∃ b : SpendBlock, cc.spend_block = some b ∧ start ≤ b.time ∧ b.time ≤ end_ := by
    intro cs
    induction cs with
    | nil => intro acc hacc; exact hacc
    | cons c cs' ih =>
      intro acc hacc
      exact ih _ (buildSpendsStep_sound start end_ acc c hacc)
  exact haux coins [] (by simp)

theorem spendEvent_date (env : Env) (bk : Backend) (coins : List Coin)
    (start end_ : Nat) (txid : Txid) (cs : List Coin) (e : HistoryEvent)
    (hq : ∀ c ∈ cs, ∃ b : SpendBlock,
      c.spend_block = some b ∧ start ≤ b.time ∧ b.time ≤ end_)
    (h : spendEvent env bk coins txid cs = some e) :
    start ≤ e.date ∧ e.date ≤ end_ := by
  simp only [spendEvent] at h
  split at h
  · exact absurd h (by simp)
  · rename_i tx htx
    split at h
    · exact absurd h (by simp)
    · rename_i first tail
      split at h
      · exact absurd h (by simp)
      · rename_i b hb
        obtain rfl := Option.some.inj h
        obtain ⟨b', hb', h1, h2⟩ := hq first (List.mem_cons_self _ _)
        rw [hb] at hb'
        obtain rfl := Option.some.inj hb'
        exact ⟨h1, h2⟩

/-- Claim C4: for `start ≤ end` and any limit, `gethistory` returns at most
`limit` events, every event's date lies in `[start, end]`, and the dates
are non-increasing in list order. -/
theorem c4_gethistory (env : Env) (bk : Backend) (coins : List Coin)
    (start end_ limit : Nat) (_hse : start ≤ end_) :
    (gethistory env bk coins start end_ limit).events.length ≤ limit ∧
    (∀ e ∈ (gethistory env bk coins start end_ limit).events,
      start ≤ e.date ∧ e.date ≤ end_) ∧
    (gethistory env bk coins start end_ limit).events.Pairwise
      (fun a b => b.date ≤ a.date) := by
  have hunf : (gethistory env bk coins start end_ limit).events =
      ((coins.filterMap (receiveEvent start end_) ++
        (buildSpends start end_ coins).filterMap
          (fun g => spendEvent env bk coins g.1 g.2)).insertionSort eventDateGe).take
        limit := rfl
  refine ⟨?_, ?_, ?_⟩
  · rw [hunf]
    exact List.length_take_le limit _
  · intro e he
    rw [hunf] at he
    have hmem : e ∈ (coins.filterMap (receiveEvent start end_) ++
        (buildSpends start end_ coins).filterMap
          (fun g => spendEvent env bk coins g.1 g.2)) := by
      have h1 := (List.take_sublist limit _).subset he
      exact (List.mem_insertionSort eventDateGe).mp h1
    rcases List.mem_append.mp hmem with hr | hs
    · obtain ⟨c, _, hc⟩ := List.mem_filterMap.mp hr
      exact receiveEvent_date start end_ c e hc
    · obtain ⟨g, hg, hev⟩ := List.mem_filterMap.mp hs
      exact spendEvent_date env bk coins start end_ g.1 g.2 e
        (buildSpends_sound start end_ coins g hg) hev
  · rw [hunf]
    have hsorted := List.sorted_insertionSort eventDateGe
      (coins.filterMap (receiveEvent start end_) ++
        (buildSpends start end_ coins).filterMap
          (fun g => spendEvent env bk coins g.1 g.2))
    exact (hsorted.sublist (List.take_sublist limit _)).imp (fun h => h)

/-- Witness for C4: a concrete history query over one received and one
spent coin. -/
theorem c4_witness :
    (gethistory envW3 bkW5 [coinH, coinS, coinC] 0 4 10).events.length ≤ 10 :=
  (c4_gethistory envW3 bkW5 [coinH, coinS, coinC] 0 4 10 (by decide)).1

/-! ## Claim C5 -/

theorem outPoint_eq_mk_iff (o : OutPoint) (t : Txid) (v : Nat) :
    o = ⟨t, v⟩ ↔ (o.txid = t ∧ o.vout = v) := by
  cases o
  simp [OutPoint.mk.injEq]

/-- Claim C5: for a spend group whose transaction the backend returns, the
emitted event classifies each output of the transaction as change exactly
when some fetched coin with `is_change` sits at outpoint
`(tx.txid(), vout)`; the event's amount is the recipients' (non-change)
total and its `miner_fee` is the grouped coins' total minus
(recipients + change), under the hypothesis that this difference does not
underflow (the code would panic there). -/
theorem c5_spend_classification (env : Env) (bk : Backend) (coins : List Coin)
    (txid : Txid) (c : Coin) (rest : List Coin) (tx : Transaction) (b : SpendBlock)
    (hw : bk.wallet_transaction txid = some tx)
    (hb : c.spend_block = some b)
    (_hfee : (classifyOutputs env coins tx).1 + (classifyOutputs env coins tx).2 ≤
      ((c :: rest).map Coin.amount).sum) :
    spendEvent env bk coins txid (c :: rest) =
      some { kind := .Spend
             date := b.time
             amount := (classifyOutputs env coins tx).1
             miner_fee := some (((c :: rest).map Coin.amount).sum -
               ((classifyOutputs env coins tx).1 + (classifyOutputs env coins tx).2))
             txid := txid
             coins := (c :: rest).map Coin.outpoint } ∧
    (∀ vout, isChangeOutput env coins tx vout = true ↔
      ∃ cc ∈ coins, cc.outpoint = ⟨env.txidOf tx, vout⟩ ∧ cc.is_change = true) ∧
    (∀ (n : Nat) (outs : List TxOut),
      (classifyFrom env coins tx n outs).1 =
        (((List.enumFrom n outs).filter
            (fun p => ! isChangeOutput env coins tx p.1)).map (fun p => p.2.value)).sum ∧
      (classifyFrom env coins tx n outs).2 =
        (((List.enumFrom n outs).filter
            (fun p => isChangeOutput env coins tx p.1)).map (fun p => p.2.value)).sum) := by
  refine ⟨?_, ?_, ?_⟩
  · simp only [spendEvent, hw, hb]
  · intro vout
    simp only [isChangeOutput, List.any_eq_true, decide_eq_true_eq]
    constructor
    · rintro ⟨cc, hcc, h1, h2, h3⟩
      exact ⟨cc, hcc, (outPoint_eq_mk_iff cc.outpoint _ _).mpr ⟨h1, h2⟩, h3⟩
    · rintro ⟨cc, hcc, hop, hch⟩
      obtain ⟨h1, h2⟩ := (outPoint_eq_mk_iff cc.outpoint _ _).mp hop
      exact ⟨cc, hcc, h1, h2, hch⟩
  · intro n outs
    induction outs generalizing n with
    | nil => simp [classifyFrom]
    | cons o os ih =>
      have henum : List.enumFrom n (o :: os) = (n, o) :: List.enumFrom (n + 1) os := rfl
      by_cases hch : isChangeOutput env coins tx n = true
      · simp only [classifyFrom, hch, if_pos rfl, henum, List.filter_cons]
        simp [hch, (ih (n + 1)).1, (ih (n + 1)).2, Nat.add_comm]
      · have hch' : isChangeOutput env coins tx n = false := by
          simpa using hch
        simp only [classifyFrom, hch', henum, List.filter_cons]
        simp [hch', (ih (n + 1)).1, (ih (n + 1)).2, Nat.add_comm]

/-- Witness for C5: the spend of `coinS` via `txS` (one 4000-sat recipient
output, one 995000-sat change output matched by the change coin `coinC`). -/
theorem c5_witness :
    spendEvent envW3 bkW5 [coinH, coinS, coinC] 9 [coinS] =
      some { kind := .Spend
             date := 3
             amount := 4000
             miner_fee := some 1000
             txid := 9
             coins := [⟨50, 1⟩] } := by
  exact (c5_spend_classification envW3 bkW5 [coinH, coinS, coinC] 9 coinS [] txS
    { height := 3, time := 3 } rfl rfl (by decide)).1

end Minisafe
